import Mathlib

/-!
# Verification of the Neurelo Connect MCP server core

Shallow embedding of the repository's core components:

* the JSON-Schema → Zod validator compiler (`getZodSchemaFromJsonSchema` in
  `src/mcp.ts`), together with models of the external `json-schema-to-zod`
  and `zod-to-json-schema` libraries restricted to the schema shapes the
  repository exercises (pinned by the repository's own test file
  `src/mcp.test.ts`);
* the engine client facade (`src/engine-client.ts`): `executeRequest`,
  `handleError`, `EngineCallError`;
* the tool registrar (`addEndpoints` and the registration sequence of
  `startMcpServer` in `src/mcp.ts`);
* the streaming-HTTP `/messages` session routing of `startMcpServer`.
-/

/-! ## JSON values

JSON values as exchanged at runtime.  Arrays and objects are represented
with dedicated mutual list types so every function below is structurally
recursive. Numbers are modelled as integers (sufficient for every value the
repository's code and tests manipulate). -/

mutual

inductive Json where
  | jnull : Json
  | jbool (b : Bool) : Json
  | jnum (n : Int) : Json
  | jstr (s : String) : Json
  | jarr (items : JsonList) : Json
  | jobj (fields : JsonObj) : Json
deriving Repr, DecidableEq

inductive JsonList where
  | nil : JsonList
  | cons (head : Json) (tail : JsonList) : JsonList
deriving Repr, DecidableEq

inductive JsonObj where
  | nil : JsonObj
  | cons (key : String) (value : Json) (rest : JsonObj) : JsonObj
deriving Repr, DecidableEq

end

/-- First binding of a key in a JSON object (JS property lookup). -/
def JsonObj.lookup (k : String) : JsonObj → Option Json
  | .nil => none
  | .cons key value rest => if key = k then some value else JsonObj.lookup k rest

/-- Does every binding of the object satisfy the predicate on its key? -/
def JsonObj.allKeys (p : String → Bool) : JsonObj → Bool
  | .nil => true
  | .cons key _ rest => p key && JsonObj.allKeys p rest

/-! ## JSON-Schema fragments

The subset of JSON-Schema shapes the repository's compiler is exercised on
(`src/mcp.test.ts`): `string`, `number`, `boolean`, `array` with an `items`
schema, `object` with or without declared `properties` (plus `required` and
`additionalProperties`), string `enum`, a string `const` (the round-trip
image of a one-element `enum`), `oneOf`, and the empty schema `{}`
(a schema with no recognized constructs, which per the JSON-Schema standard
constrains nothing).

`jobjectAny` is `{type: "object"}` (no `additionalProperties` key) while
`jobjectAnyOpen` is `{type: "object", additionalProperties: {}}`; the two
are distinct fragments syntactically, which matters for round-tripping. -/

mutual

inductive JsonSchema where
  | jstring : JsonSchema
  | jnumber : JsonSchema
  | jboolean : JsonSchema
  | jarray (items : JsonSchema) : JsonSchema
  | jobjectAny : JsonSchema
  | jobjectAnyOpen : JsonSchema
  | jobjectProps (props : JsonProps) (required : List String)
      (addlForbidden : Bool) : JsonSchema
  | jstringEnum (values : List String) : JsonSchema
  | jstringConst (value : String) : JsonSchema
  | joneOf (variants : JsonSchemaList) : JsonSchema
  | jempty : JsonSchema
deriving Repr, DecidableEq

inductive JsonProps where
  | nil : JsonProps
  | cons (name : String) (schema : JsonSchema) (rest : JsonProps) : JsonProps
deriving Repr, DecidableEq

inductive JsonSchemaList where
  | nil : JsonSchemaList
  | cons (head : JsonSchema) (tail : JsonSchemaList) : JsonSchemaList
deriving Repr, DecidableEq

end

/-- Declared property names, in declaration order. -/
def JsonProps.names : JsonProps → List String
  | .nil => []
  | .cons name _ rest => name :: JsonProps.names rest

/-! ## Zod validators

The validator objects produced by the `json-schema-to-zod` library for the
schema shapes above.  `zrecordAny` is `z.record(z.any())` (any JSON object);
`zobject` is `z.object({...})`, `.strict()` when the flag is set; a field
carries its name, its value validator and whether it is required (a
non-required field is wrapped in `.optional()`); `zliteral` is
`z.literal(...)`, the image of a one-element `enum` or a `const`;
`zoneOfAny` is the
library's `oneOf` encoding `z.any().superRefine(...)` which checks that
exactly one of the variant validators accepts. -/

mutual

inductive ZodSchema where
  | zstring : ZodSchema
  | znumber : ZodSchema
  | zboolean : ZodSchema
  | zany : ZodSchema
  | zarray (item : ZodSchema) : ZodSchema
  | zrecordAny : ZodSchema
  | zobject (fields : ZodFields) (strict : Bool) : ZodSchema
  | zenum (values : List String) : ZodSchema
  | zliteral (value : String) : ZodSchema
  | zoneOfAny (variants : ZodSchemas) : ZodSchema
deriving Repr, DecidableEq

inductive ZodFields where
  | nil : ZodFields
  | cons (name : String) (schema : ZodSchema) (required : Bool)
      (rest : ZodFields) : ZodFields
deriving Repr, DecidableEq

inductive ZodSchemas where
  | nil : ZodSchemas
  | cons (head : ZodSchema) (tail : ZodSchemas) : ZodSchemas
deriving Repr, DecidableEq

end

/-- Declared field names of a `z.object`, in declaration order. -/
def ZodFields.names : ZodFields → List String
  | .nil => []
  | .cons name _ _ rest => name :: ZodFields.names rest

/-! ## The `json-schema-to-zod` library

Model of the external `json-schema-to-zod` transformation on the fragments
above, pinned by the repository's test file `src/mcp.test.ts`: each tested
fragment must compile to a validator with exactly the accept/reject
behaviour and the `zod-to-json-schema` image the tests assert.  A fragment
with no recognized constructs (the empty schema) maps to `z.any()`, the
library's documented fallback; a one-element `enum` is special-cased to
`z.literal(...)` rather than `z.enum(...)`; on these fragments the
transformation never throws. -/

mutual

def jsonSchemaToZodFn : JsonSchema → ZodSchema
  | .jstring => .zstring
  | .jnumber => .znumber
  | .jboolean => .zboolean
  | .jarray items => .zarray (jsonSchemaToZodFn items)
  | .jobjectAny => .zrecordAny
  | .jobjectAnyOpen => .zrecordAny
  | .jobjectProps props required addlForbidden =>
      .zobject (jsonPropsToZodFields required props) addlForbidden
  | .jstringEnum values =>
      match values with
      | [v] => .zliteral v
      | _ => .zenum values
  | .jstringConst v => .zliteral v
  | .joneOf variants => .zoneOfAny (jsonSchemaListToZods variants)
  | .jempty => .zany

def jsonPropsToZodFields (required : List String) : JsonProps → ZodFields
  | .nil => .nil
  | .cons name schema rest =>
      .cons name (jsonSchemaToZodFn schema) (required.contains name)
        (jsonPropsToZodFields required rest)

def jsonSchemaListToZods : JsonSchemaList → ZodSchemas
  | .nil => .nil
  | .cons head tail => .cons (jsonSchemaToZodFn head) (jsonSchemaListToZods tail)

end

/-! ## Zod runtime validation (`safeParse` success) -/

mutual

/-- Does `safeParse` succeed on this value for this validator? -/
def zodParse : ZodSchema → Json → Bool
  | .zstring, .jstr _ => true
  | .zstring, _ => false
  | .znumber, .jnum _ => true
  | .znumber, _ => false
  | .zboolean, .jbool _ => true
  | .zboolean, _ => false
  | .zany, _ => true
  | .zarray item, .jarr items => zodParseList item items
  | .zarray _, _ => false
  | .zrecordAny, .jobj _ => true
  | .zrecordAny, _ => false
  | .zobject fields strict, .jobj kvs =>
      zodParseFields fields kvs &&
        (!strict || kvs.allKeys (fun k => (fields.names).contains k))
  | .zobject _ _, _ => false
  | .zenum values, .jstr s => values.contains s
  | .zenum _, _ => false
  | .zliteral w, .jstr s => s == w
  | .zliteral _, _ => false
  | .zoneOfAny variants, v => zodCountAccepting variants v == 1

def zodParseList (item : ZodSchema) : JsonList → Bool
  | .nil => true
  | .cons head tail => zodParse item head && zodParseList item tail

def zodParseFields (fields : ZodFields) (kvs : JsonObj) : Bool :=
  match fields with
  | .nil => true
  | .cons name schema required rest =>
      (match kvs.lookup name with
       | some v => zodParse schema v
       | none => !required) && zodParseFields rest kvs

/-- How many of the `oneOf` variant validators accept the value
(the generated `superRefine` requires exactly one). -/
def zodCountAccepting (variants : ZodSchemas) (v : Json) : Nat :=
  match variants with
  | .nil => 0
  | .cons head tail =>
      (if zodParse head v then 1 else 0) + zodCountAccepting tail v

end

/-! ## The `zod-to-json-schema` library

Model of the external `zod-to-json-schema` conversion on validators in the
image of the compiler, pinned by the same test file: `z.record(z.any())`
maps back to `{type: "object", additionalProperties: {}}`, `z.any()` (the
`oneOf` encoding) maps back to the empty schema, and a `z.object` maps back
to properties in declaration order with `required` listing the
non-optional fields in that order. -/

mutual

def zodToJsonSchemaFn : ZodSchema → JsonSchema
  | .zstring => .jstring
  | .znumber => .jnumber
  | .zboolean => .jboolean
  | .zany => .jempty
  | .zarray item => .jarray (zodToJsonSchemaFn item)
  | .zrecordAny => .jobjectAnyOpen
  | .zobject fields strict =>
      .jobjectProps (zodFieldsToJsonProps fields) (zodFieldsRequired fields) strict
  | .zenum values => .jstringEnum values
  | .zliteral v => .jstringConst v
  | .zoneOfAny _ => .jempty

def zodFieldsToJsonProps : ZodFields → JsonProps
  | .nil => .nil
  | .cons name schema _ rest =>
      .cons name (zodToJsonSchemaFn schema) (zodFieldsToJsonProps rest)

def zodFieldsRequired : ZodFields → List String
  | .nil => []
  | .cons name _ required rest =>
      if required then name :: zodFieldsRequired rest else zodFieldsRequired rest

end

/-! ## JSON-Schema validity (specification side)

What a JSON-Schema fragment *declares valid*, following the JSON-Schema
standard's semantics restricted to the fragments above.  This definition is
written from the meaning of JSON-Schema (the spec's notion of "every value
that the schema declares valid"), independently of the compiler, and is
compared against the compiled validator's behaviour in the theorems. -/

mutual

def schemaDeclaresValid : JsonSchema → Json → Bool
  | .jstring, .jstr _ => true
  | .jstring, _ => false
  | .jnumber, .jnum _ => true
  | .jnumber, _ => false
  | .jboolean, .jbool _ => true
  | .jboolean, _ => false
  | .jarray items, .jarr xs => schemaListValid items xs
  | .jarray _, _ => false
  | .jobjectAny, .jobj _ => true
  | .jobjectAny, _ => false
  | .jobjectAnyOpen, .jobj _ => true
  | .jobjectAnyOpen, _ => false
  | .jobjectProps props required addlForbidden, .jobj kvs =>
      schemaPropsValid props kvs &&
        required.all (fun r => (kvs.lookup r).isSome) &&
        (!addlForbidden || kvs.allKeys (fun k => (props.names).contains k))
  | .jobjectProps _ _ _, _ => false
  | .jstringEnum values, .jstr s => values.contains s
  | .jstringEnum _, _ => false
  | .jstringConst w, .jstr s => s == w
  | .jstringConst _, _ => false
  | .joneOf variants, v => schemaCountValid variants v == 1
  | .jempty, _ => true

def schemaListValid (items : JsonSchema) : JsonList → Bool
  | .nil => true
  | .cons head tail => schemaDeclaresValid items head && schemaListValid items tail

def schemaPropsValid (props : JsonProps) (kvs : JsonObj) : Bool :=
  match props with
  | .nil => true
  | .cons name schema rest =>
      (match kvs.lookup name with
       | some v => schemaDeclaresValid schema v
       | none => true) && schemaPropsValid rest kvs

def schemaCountValid (variants : JsonSchemaList) (v : Json) : Nat :=
  match variants with
  | .nil => 0
  | .cons head tail =>
      (if schemaDeclaresValid head v then 1 else 0) + schemaCountValid tail v

end

/-- Primitive kinds of JSON values. -/
inductive JsonKind where
  | knull | kbool | knum | kstr | karr | kobj
deriving Repr, DecidableEq

def Json.primKind : Json → JsonKind
  | .jnull => .knull
  | .jbool _ => .kbool
  | .jnum _ => .knum
  | .jstr _ => .kstr
  | .jarr _ => .karr
  | .jobj _ => .kobj

/-- The single primitive kind a schema fragment describes, when it has one
(`oneOf` and the empty schema do not). -/
def JsonSchema.primKind : JsonSchema → Option JsonKind
  | .jstring => some .kstr
  | .jnumber => some .knum
  | .jboolean => some .kbool
  | .jarray _ => some .karr
  | .jobjectAny => some .kobj
  | .jobjectAnyOpen => some .kobj
  | .jobjectProps _ _ _ => some .kobj
  | .jstringEnum _ => some .kstr
  | .jstringConst _ => some .kstr
  | .joneOf _ => none
  | .jempty => none

/-! ## Supported shapes

The "fully-supported" schema shapes: `string`, `number`, `boolean`,
`array` of a supported item type, `object` (with or without declared
properties), `enum`.  A properties-object is supported when its `enum`s
are nonempty recursively, and its `required` list only names declared
properties (an undeclared required name has no compiled counterpart). -/

mutual

def supportedShape : JsonSchema → Bool
  | .jstring => true
  | .jnumber => true
  | .jboolean => true
  | .jarray items => supportedShape items
  | .jobjectAny => true
  | .jobjectAnyOpen => true
  | .jobjectProps props required _ =>
      supportedProps props && required.all (fun r => (props.names).contains r)
  | .jstringEnum values => !values.isEmpty
  | .jstringConst _ => false
  | .joneOf _ => false
  | .jempty => false

def supportedProps : JsonProps → Bool
  | .nil => true
  | .cons _ schema rest => supportedShape schema && supportedProps rest

end

/-! ## The compiler `getZodSchemaFromJsonSchema` (src/mcp.ts)

The source calls the library's transformation inside `try`; if it throws,
it rethrows an error with `name = "ZodSchemaConversionError"` carrying the
offending schema (`sourceSchema`) and the original failure as `cause`;
otherwise it evaluates the generated validator code.  `convertWith` is the
wrapper over an arbitrary transformation; `jsonSchemaToZod` is the modelled
library transformation, which succeeds on every fragment of the modelled
AST. -/

inductive CompileError where
  | zodSchemaConversionError (sourceSchema : JsonSchema) (cause : String)
deriving Repr, DecidableEq

def convertWith (convert : JsonSchema → Except String ZodSchema)
    (jsonSchema : JsonSchema) : Except CompileError ZodSchema :=
  match convert jsonSchema with
  | .ok zodSchema => .ok zodSchema
  | .error cause => .error (.zodSchemaConversionError jsonSchema cause)

def jsonSchemaToZod (jsonSchema : JsonSchema) : Except String ZodSchema :=
  .ok (jsonSchemaToZodFn jsonSchema)

def getZodSchemaFromJsonSchema : JsonSchema → Except CompileError ZodSchema :=
  convertWith jsonSchemaToZod

/-- Round-trip of the compiler with the `zod-to-json-schema` conversion. -/
def schemaRoundTrip (jsonSchema : JsonSchema) : Except CompileError JsonSchema :=
  (getZodSchemaFromJsonSchema jsonSchema).map zodToJsonSchemaFn

/-! ## Engine client facade (src/engine-client.ts) -/

/-- A parameter value as typed by the tool surface:
`string | number | boolean`. -/
inductive ParamValue where
  | pstr (s : String)
  | pnum (n : Int)
  | pbool (b : Bool)
deriving Repr, DecidableEq

/-- JavaScript `String(value)` on a `string | number | boolean` value. -/
def ParamValue.stringOf : ParamValue → String
  | .pstr s => s
  | .pnum n => toString n
  | .pbool b => if b then "true" else "false"

abbrev Params := List (String × ParamValue)

/-- The response attached to an `AxiosError` (present for HTTP-level
failures, absent for connection-level ones). `data` is the parsed body,
`none` when no structured body is present. -/
structure AxiosResponseInfo where
  status : Nat
  headers : List (String × String)
  data : Option Json
deriving Repr, DecidableEq

/-- The parts of an `AxiosError` read by `handleError`. -/
structure AxiosErrorInfo where
  method : Option String
  url : Option String
  response : Option AxiosResponseInfo
deriving Repr, DecidableEq

/-- A failure produced by an outbound HTTP call: either an `AxiosError`
(non-2xx response or Axios-level transport failure), or any other thrown
value, identified by its payload. -/
inductive RequestFailure where
  | axios (e : AxiosErrorInfo)
  | other (identity : String)
deriving Repr, DecidableEq

/-- The `EngineCallError` class: name, message context and the fields the
constructor stores. -/
structure EngineCallError where
  method : String
  url : String
  status : Option Nat
  headers : Option (List (String × String))
  error : Json
deriving Repr, DecidableEq

/-- What a facade operation throws to its caller. -/
inductive ThrownError where
  | engineCall (e : EngineCallError)
  | other (identity : String)
deriving Repr, DecidableEq

/-- `handleError` (src/engine-client.ts): an `AxiosError` becomes an
`EngineCallError` built from `config?.method ?? "unknown"`,
`config?.url ?? "unknown"`, `response?.status`, `response?.headers` and
`response?.data ?? {}`; anything else is rethrown unchanged. -/
def handleError : RequestFailure → ThrownError
  | .axios e =>
      .engineCall
        { method := e.method.getD "unknown"
          url := e.url.getD "unknown"
          status := e.response.map (·.status)
          headers := e.response.map (·.headers)
          error := (e.response.bind (·.data)).getD (Json.jobj .nil) }
  | .other identity => .other identity

/-- `.then((res) => res.data).catch(handleError)` applied to a base client
call's outcome. -/
def facadeCall {α : Type} : Except RequestFailure α → Except ThrownError α
  | .ok a => .ok a
  | .error e => .error (handleError e)

/-- The sanitized facade operations (every method of the returned client
other than `executeRequest`). -/
inductive FacadeOp where
  | getEndpoints
  | getStatus
  | getTargetDbStatus (targetSlug : String)
  | executeReadonlyQuery (target : String) (query : String)
  | executeReadWriteQuery (target : String) (query : String)
  | getSchema (target : String)
  | getTargets
deriving Repr, DecidableEq

/-- Each facade operation forwards to the corresponding base client call
and applies the same `.catch(handleError)`. -/
def runFacade (base : FacadeOp → Except RequestFailure Json) (op : FacadeOp) :
    Except ThrownError Json :=
  facadeCall (base op)

/-- The two endpoint-execution calls of the generated base client. -/
structure EndpointBase where
  onGet : String → List (String × String) → Except RequestFailure Json
  onPost : String → Params → Except RequestFailure Json

/-- `executeRequest` (src/engine-client.ts): when `requestMethod` is
exactly `"GET"`, every parameter value is converted with `String(value)`
and the GET endpoint call is used; otherwise the parameters object is
passed to the POST endpoint call unmodified. -/
def executeRequest (base : EndpointBase) (path : String) (requestMethod : String)
    (parameters : Params) : Except ThrownError Json :=
  if requestMethod = "GET" then
    facadeCall (base.onGet path (parameters.map fun kv => (kv.1, kv.2.stringOf)))
  else
    facadeCall (base.onPost path parameters)

/-! ## Tool registrar (src/mcp.ts)

The registration sequence of `startMcpServer` and `addEndpoints`, modelled
as a pure fold producing the registered tool list.  Handlers are modelled
by a descriptor naming the single facade operation the handler calls (and,
for a per-endpoint tool, the `path` and `requestMethod` it passes to
`executeRequest`). -/

/-- A parameter entry of an endpoint's `params` map (`ParameterSpec`):
its JSON-Schema fragment (`none` models an absent/falsy `schema`),
optionality, and description. -/
structure ParameterSpec where
  schema : Option JsonSchema
  optional : Bool
  description : String
deriving Repr, DecidableEq

/-- One remotely-defined endpoint (`EndpointMetadata`).  The `description`
is optional; `none` and the empty string are both falsy in the source. -/
structure EndpointMetadata where
  path : String
  requestMethod : String
  description : Option String
  params : List (String × ParameterSpec)
deriving Repr, DecidableEq

/-- A compiled parameter validator as built in `addEndpoints`: the base
Zod validator from the compiler, wrapped `.optional()` when the parameter
is optional, with `.describe(param.description)` attached. -/
structure CompiledParam where
  schema : ZodSchema
  optional : Bool
  description : String
deriving Repr, DecidableEq

/-- The input validator attached to one tool parameter at registration. -/
inductive ToolInput where
  | zodString (description : Option String)
  | zodParamMap
  | compiled (p : CompiledParam)
deriving Repr, DecidableEq

/-- Which facade operation a tool's handler invokes. -/
inductive HandlerSpec where
  | listDatabases
  | getDatabaseStatus
  | getOverallStatus
  | getDatabaseSchema
  | rawReadonlyQuery
  | rawQuery
  | getEndpointsDynamic
  | callEndpointDynamic
  | queryEndpoint (path : String) (requestMethod : String)
deriving Repr, DecidableEq

/-- One registered tool. -/
structure Tool where
  name : String
  description : String
  inputs : List (String × ToolInput)
  handler : HandlerSpec
deriving Repr, DecidableEq

/-- Errors that abort the registration pass. -/
inductive RegistrationError where
  | toolAlreadyRegistered (name : String)
  | noSchemaFound (paramName : String) (endpointPath : String)
  | schemaCompile (e : CompileError)
deriving Repr, DecidableEq

/-- Modelled from the spec: the tool registry kept by the external MCP
SDK's server (`McpServer.tool`), which appends the new tool and rejects a
name that is already registered instead of shadowing it (the spec's
ToolRegistration uniqueness invariant: a collision is surfaced, not
swallowed). -/
def registerTool (registry : List Tool) (t : Tool) :
    Except RegistrationError (List Tool) :=
  if registry.any (fun u => u.name == t.name) then
    .error (.toolAlreadyRegistered t.name)
  else
    .ok (registry ++ [t])

/-- `` `${toolPrefix ? `${toolPrefix}_` : ""}` ++ name ``: the prefix is
applied only when it is truthy (present and nonempty). -/
def applyToolNamePrefix (toolPrefixOpt : Option String) (name : String) : String :=
  match toolPrefixOpt with
  | some p => if p = "" then name else p ++ "_" ++ name
  | none => name

/-- `disableTools?.includes(name)` — `none` disables nothing. -/
def isDisabled (disableTools : Option (List String)) (name : String) : Bool :=
  match disableTools with
  | some d => d.contains name
  | none => false

/-- The registration-relevant server options. -/
structure MCPOptions where
  toolPrefixOpt : Option String
  dynamicEndpointTools : Bool
  disableTools : Option (List String)
deriving Repr, DecidableEq

/-- The built-in tools, in source registration order, as
(base name, description, inputs, handler). -/
def builtinSpecs : List (String × String × List (String × ToolInput) × HandlerSpec) :=
  [ ("system_list_databases", "List all the available databases", [],
      .listDatabases),
    ("system_get_database_status", "Get the status of a given database",
      [("target", .zodString none)], .getDatabaseStatus),
    ("system_get_status", "Check if all databases are running", [],
      .getOverallStatus),
    ("system_get_database_schema", "Get the schema for a given database",
      [("target", .zodString none)], .getDatabaseSchema),
    ("raw_readonly_query",
      "Execute a raw query against a database with readonly access. Can only be called if the database allows raw readonly queries.",
      [("target", .zodString (some "The database to query")),
       ("query", .zodString (some "The query to execute"))],
      .rawReadonlyQuery),
    ("raw_query",
      "Execute a raw query against a database with read/write access. Can only be called if the database allows raw read/write queries.",
      [("target", .zodString (some "The database to query")),
       ("query", .zodString (some "The query to execute"))],
      .rawQuery) ]

/-- The tool built from one entry of `builtinSpecs`. -/
def mkBuiltinTool (toolPrefixOpt : Option String)
    (b : String × String × List (String × ToolInput) × HandlerSpec) : Tool :=
  { name := applyToolNamePrefix toolPrefixOpt b.1
    description := b.2.1
    inputs := b.2.2.1
    handler := b.2.2.2 }

/-- Sequential conditional registration of a list of built-in tool
specifications: each is skipped when its (unprefixed) base name is in the
disable-list, otherwise the tool is registered under its prefixed name. -/
def registerSpecs (opts : MCPOptions) (registry : List Tool) :
    List (String × String × List (String × ToolInput) × HandlerSpec) →
      Except RegistrationError (List Tool)
  | [] => .ok registry
  | b :: rest => do
      let registry' ←
        if isDisabled opts.disableTools b.1 then
          .ok registry
        else
          registerTool registry (mkBuiltinTool opts.toolPrefixOpt b)
      registerSpecs opts registry' rest

/-- The six built-in registrations of `startMcpServer`, in source order. -/
def registerBuiltins (opts : MCPOptions) (registry : List Tool) :
    Except RegistrationError (List Tool) :=
  registerSpecs opts registry builtinSpecs

/-- Compilation of one endpoint parameter in `addEndpoints`: a missing
schema throws "No schema found for parameter ..."; otherwise the fragment
goes through `getZodSchemaFromJsonSchema` (here over an arbitrary
transformation `convert`), then `.optional()` and `.describe(...)` are
applied. -/
def compileParameter (convert : JsonSchema → Except String ZodSchema)
    (endpointPath : String) (paramName : String) (p : ParameterSpec) :
    Except RegistrationError CompiledParam :=
  match p.schema with
  | none => .error (.noSchemaFound paramName endpointPath)
  | some js =>
      match convertWith convert js with
      | .error e => .error (.schemaCompile e)
      | .ok z => .ok { schema := z, optional := p.optional, description := p.description }

/-- All parameters of one endpoint, compiled in declaration order (the
`Object.entries(endpoint.params).map(...)` loop, which runs before the
disable-list check). -/
def compileParameters (convert : JsonSchema → Except String ZodSchema)
    (endpointPath : String) :
    List (String × ParameterSpec) →
      Except RegistrationError (List (String × CompiledParam))
  | [] => .ok []
  | (n, p) :: rest => do
      let c ← compileParameter convert endpointPath n p
      let cs ← compileParameters convert endpointPath rest
      return (n, c) :: cs

/-- The derived tool name of an endpoint, before prefixing. -/
def endpointToolName (e : EndpointMetadata) : String :=
  "query_" ++ e.path

/-- `` `Defined Query${endpoint.description ? ... : ""}` ``. -/
def endpointToolDescription (e : EndpointMetadata) : String :=
  "Defined Query" ++
    (match e.description with
     | some d => if d = "" then "" else ": " ++ d
     | none => "")

/-- The tool registered for one endpoint in `addEndpoints`. -/
def endpointTool (toolPrefixOpt : Option String) (e : EndpointMetadata)
    (compiledParams : List (String × CompiledParam)) : Tool :=
  { name := applyToolNamePrefix toolPrefixOpt (endpointToolName e)
    description := endpointToolDescription e
    inputs := compiledParams.map fun kv => (kv.1, ToolInput.compiled kv.2)
    handler := .queryEndpoint e.path e.requestMethod }

/-- `addEndpoints` (src/mcp.ts): for each endpoint, first compile every
parameter schema (failing fast), then — only if `query_<path>` is not in
the disable-list — register the per-endpoint tool. -/
def addEndpoints (convert : JsonSchema → Except String ZodSchema)
    (registry : List Tool) (endpoints : List EndpointMetadata)
    (toolPrefixOpt : Option String) (disableTools : Option (List String)) :
    Except RegistrationError (List Tool) :=
  match endpoints with
  | [] => .ok registry
  | e :: rest => do
      let compiledParams ← compileParameters convert e.path e.params
      let registry' ←
        if isDisabled disableTools (endpointToolName e) then
          pure registry
        else
          registerTool registry (endpointTool toolPrefixOpt e compiledParams)
      addEndpoints convert registry' rest toolPrefixOpt disableTools

/-- The `system_get_endpoints` tool of dynamic endpoint mode. -/
def toolGetEndpoints (opts : MCPOptions) : Tool :=
  { name := applyToolNamePrefix opts.toolPrefixOpt "system_get_endpoints"
    description := "Get all available endpoints for stored queries and workflows"
    inputs := []
    handler := .getEndpointsDynamic }

/-- The `call_endpoint` tool of dynamic endpoint mode, with parameters
`path : z.string()`, `requestMethod : z.string()` and `parameters :
z.record(z.string(), z.union([z.string(), z.number(), z.boolean()]))`. -/
def toolCallEndpoint (opts : MCPOptions) : Tool :=
  { name := applyToolNamePrefix opts.toolPrefixOpt "call_endpoint"
    description := "Call a given stored query/playbook endpoint with the provided parameters"
    inputs := [("path", .zodString none), ("requestMethod", .zodString none),
               ("parameters", .zodParamMap)]
    handler := .callEndpointDynamic }

/-- The tool-registration portion of `startMcpServer`: built-ins first,
then — branching on `dynamicEndpointTools` — either the two generic
endpoint tools, or one fetch of the endpoint metadata snapshot followed by
`addEndpoints`.  The returned number counts the startup calls to
`engine.getEndpoints()`. -/
def startMcpServerTools (convert : JsonSchema → Except String ZodSchema)
    (opts : MCPOptions) (engineEndpoints : List EndpointMetadata) :
    Except RegistrationError (List Tool × Nat) := do
  let registry ← registerBuiltins opts []
  if opts.dynamicEndpointTools then
    let registry ← registerTool registry (toolGetEndpoints opts)
    let registry ← registerTool registry (toolCallEndpoint opts)
    return (registry, 0)
  else
    let registry ←
      addEndpoints convert registry engineEndpoints opts.toolPrefixOpt
        opts.disableTools
    return (registry, 1)

/-! ## Streaming-HTTP `/messages` routing (src/mcp.ts) -/

/-- The `sessionId` query parameter as express delivers it: absent, a
single string, or a non-string shape (repeated parameter or nested
object). -/
inductive QueryParamValue where
  | missing
  | single (s : String)
  | nonString
deriving Repr, DecidableEq

/-- The observable outcome of the `/messages` POST handler:
`serverError` is a thrown `TypeError` (calling `handlePostMessage` on a
value inherited from `Object.prototype`), which express surfaces as a
5xx server error, not a 400. -/
inductive MessagesPostResult where
  | clientError (status : Nat) (message : String)
  | handledBy (sessionId : String) (transport : Nat)
  | serverError
deriving Repr, DecidableEq

/-- The property names a plain object literal (`const transports = {}`)
inherits from `Object.prototype`, all bound to truthy function/object
values, and therefore visible to the bracket lookup
`transports[sessionId]`. -/
def objectPrototypeKeys : List String :=
  ["constructor", "hasOwnProperty", "isPrototypeOf", "propertyIsEnumerable",
   "toLocaleString", "toString", "valueOf", "__proto__", "__defineGetter__",
   "__defineSetter__", "__lookupGetter__", "__lookupSetter__"]

/-- The `/messages` POST handler: a non-string `sessionId` answers 400;
then `transports[sessionId]` is looked up — an own key wins, but a key
inherited from `Object.prototype` (e.g. `"constructor"`) also yields a
truthy value, so the `if (!transport)` 400 guard is passed and the
subsequent `transport.handlePostMessage(req, res)` throws a `TypeError`;
only a string that is neither an own key nor an inherited property name
reaches the 400 response. -/
def handleMessagesPost (transports : List (String × Nat))
    (sessionId : QueryParamValue) : MessagesPostResult :=
  match sessionId with
  | .single s =>
      match transports.lookup s with
      | some transport => .handledBy s transport
      | none =>
          if objectPrototypeKeys.contains s then .serverError
          else .clientError 400 "Invalid sessionId."
  | _ => .clientError 400 "Invalid sessionId."

/-! ## Characterization helpers -/

mutual

/-- Schema shapes whose round trip through the compiler and
`zod-to-json-schema` is syntactically exact: `string`, `number`,
`boolean`, `array` of such a shape, a string `enum` of two or more
values, and `object`
with declared properties, `additionalProperties: false`, whose `required`
list names exactly the required properties in declaration order. -/
def roundTripExactShape : JsonSchema → Bool
  | .jstring => true
  | .jnumber => true
  | .jboolean => true
  | .jarray items => roundTripExactShape items
  | .jobjectProps props required addlForbidden =>
      roundTripExactProps props && addlForbidden &&
        required == (props.names).filter (fun n => required.contains n)
  | .jstringEnum values =>
      match values with
      | _ :: _ :: _ => true
      | _ => false
  | _ => false

def roundTripExactProps : JsonProps → Bool
  | .nil => true
  | .cons _ schema rest => roundTripExactShape schema && roundTripExactProps rest

end

/-- The built-in tools that survive the disable-list, in order. -/
def builtinTools (opts : MCPOptions) : List Tool :=
  (builtinSpecs.filter fun b => !isDisabled opts.disableTools b.1).map
    (mkBuiltinTool opts.toolPrefixOpt)

/-- The compiled form of a parameter whose schema is present (used to
state what `compileParameters` returns when every schema is present). -/
def mkCompiledParam (p : ParameterSpec) : CompiledParam :=
  { schema :=
      match p.schema with
      | some js => jsonSchemaToZodFn js
      | none => .zany
    optional := p.optional
    description := p.description }

/-- The per-endpoint tool that static registration produces for one
endpoint (none when its derived name is disabled), assuming every
parameter schema is present. -/
def expectedEndpointTool (toolPrefixOpt : Option String)
    (disableTools : Option (List String)) (e : EndpointMetadata) : Option Tool :=
  if isDisabled disableTools (endpointToolName e) then
    none
  else
    some (endpointTool toolPrefixOpt e
      (e.params.map fun np => (np.1, mkCompiledParam np.2)))

/-- The base names of the built-in tools. -/
def builtinBaseNames : List String :=
  builtinSpecs.map (·.1)

/-- Registered tool names. -/
def toolNames (registry : List Tool) : List String :=
  registry.map Tool.name

/-! ## Basic lemmas -/

theorem String.append_inj_right {s a b : String} (h : s ++ a = s ++ b) : a = b := by
  apply String.ext
  have hd := congrArg String.data h
  simpa [String.data_append] using hd

theorem applyToolNamePrefix_injective (tp : Option String) :
    Function.Injective (applyToolNamePrefix tp) := by
  intro a b h
  cases tp with
  | none => simpa [applyToolNamePrefix] using h
  | some p =>
      by_cases hp : p = "" <;> simp [applyToolNamePrefix, hp] at h
      · exact h
      · exact String.append_inj_right h

/-- A string starting with `query_` never has first character other than
`q`; the built-in base names start with `s`, `r` or `c`. -/
theorem queryName_ne_of_head (path : String) (b : String)
    (hb : b.data.head? ≠ some 'q') : "query_" ++ path ≠ b := by
  intro h
  apply hb
  rw [← h]
  simp [String.data_append]

/-! ## Claim theorems and witnesses -/

/-- C2: `executeRequest` with `requestMethod` exactly `"GET"` converts
every entry of the parameters map to its string representation (`42` to
`"42"`, `true` to `"true"`) and passes the result to the GET endpoint
call; any other `requestMethod` forwards the parameters object to the
POST endpoint call with its values unmodified. -/
theorem executeRequest_method_routing (base : EndpointBase) (path : String)
    (requestMethod : String) (parameters : Params) :
    (requestMethod = "GET" →
      executeRequest base path requestMethod parameters =
        facadeCall (base.onGet path
          (parameters.map fun kv => (kv.1, kv.2.stringOf)))) ∧
    (requestMethod ≠ "GET" →
      executeRequest base path requestMethod parameters =
        facadeCall (base.onPost path parameters)) ∧
    ParamValue.stringOf (.pnum 42) = "42" ∧
    ParamValue.stringOf (.pbool true) = "true" ∧
    ParamValue.stringOf (.pbool false) = "false" := by
  refine ⟨fun h => ?_, fun h => ?_, rfl, rfl, rfl⟩
  · simp [executeRequest, h]
  · simp [executeRequest, h]

theorem executeRequest_method_routing_witness :
    executeRequest
        ⟨fun p _ => .ok (.jobj (.cons "get" (.jstr p) (.cons "q" (.jobj .nil) .nil))),
         fun p _ => .ok (.jstr p)⟩
        "test" "GET" [("n", .pnum 42), ("b", .pbool true)] =
      .ok (.jobj (.cons "get" (.jstr "test") (.cons "q" (.jobj .nil) .nil))) ∧
    executeRequest
        ⟨fun p _ => .ok (.jstr p), fun p _ => .ok (.jstr p)⟩
        "test" "POST" [("n", .pnum 42)] = .ok (.jstr "test") := by
  constructor
  · rw [(executeRequest_method_routing _ "test" "GET" _).1 rfl]
    rfl
  · rw [(executeRequest_method_routing _ "test" "POST" _).2.1 (by decide)]
    rfl

/-- C6: every facade operation surfaces an `AxiosError` (any non-2xx
response or Axios-level failure) as a single `EngineCallError` carrying
method, URL, status, headers and the parsed body (the empty object when no
structured body is present), and propagates every non-Axios failure
unchanged with its native identity; likewise for the two endpoint calls
behind `executeRequest`. -/
theorem facade_error_taxonomy (base : FacadeOp → Except RequestFailure Json)
    (op : FacadeOp) (e : AxiosErrorInfo) (identity : String) :
    (base op = .error (.axios e) →
      runFacade base op = .error (.engineCall
        { method := e.method.getD "unknown"
          url := e.url.getD "unknown"
          status := e.response.map (·.status)
          headers := e.response.map (·.headers)
          error := (e.response.bind (·.data)).getD (Json.jobj .nil) })) ∧
    (base op = .error (.other identity) →
      runFacade base op = .error (.other identity)) ∧
    (∀ (b : EndpointBase) (path : String) (ps : Params),
      b.onGet path (ps.map fun kv => (kv.1, kv.2.stringOf)) = .error (.axios e) →
      executeRequest b path "GET" ps = .error (.engineCall
        { method := e.method.getD "unknown"
          url := e.url.getD "unknown"
          status := e.response.map (·.status)
          headers := e.response.map (·.headers)
          error := (e.response.bind (·.data)).getD (Json.jobj .nil) })) ∧
    (∀ (b : EndpointBase) (path m : String) (ps : Params), m ≠ "GET" →
      b.onPost path ps = .error (.other identity) →
      executeRequest b path m ps = .error (.other identity)) := by
  refine ⟨fun h => ?_, fun h => ?_, fun b path ps h => ?_, fun b path m ps hm h => ?_⟩ <;>
    simp [runFacade, executeRequest, facadeCall, handleError, *]

theorem facade_error_taxonomy_witness :
    runFacade (fun _ => .error (.axios ⟨some "get", some "http://engine/targets",
        some ⟨404, [("content-type", "application/json")], none⟩⟩)) .getTargets =
      .error (.engineCall
        { method := "get", url := "http://engine/targets", status := some 404
          headers := some [("content-type", "application/json")]
          error := .jobj .nil }) ∧
    runFacade (fun _ => .error (.other "ENOTFOUND")) .getStatus =
      .error (.other "ENOTFOUND") := by
  have h := facade_error_taxonomy
    (fun _ => .error (.axios ⟨some "get", some "http://engine/targets",
      some ⟨404, [("content-type", "application/json")], none⟩⟩)) .getTargets
    ⟨some "get", some "http://engine/targets",
      some ⟨404, [("content-type", "application/json")], none⟩⟩ "ENOTFOUND"
  have h2 := facade_error_taxonomy (fun _ => .error (.other "ENOTFOUND")) .getStatus
    ⟨none, none, none⟩ "ENOTFOUND"
  exact ⟨h.1 rfl, h2.2.1 rfl⟩

/-- C8 counterexample: a `sessionId` that is not a key of the live
session registry does not always get a 400 — `"constructor"` is found on
`Object.prototype` by the bracket lookup `transports[sessionId]`, passes
the `!transport` guard, and the handler throws a `TypeError` on
`transport.handlePostMessage` (a server error) instead of answering
400. -/
theorem messagesPost_constructor_counterexample :
    handleMessagesPost [("live-session", 7)] (.single "constructor") =
      .serverError ∧
    MessagesPostResult.serverError ≠
      .clientError 400 "Invalid sessionId." := ⟨rfl, by decide⟩

/-- C8 (amended): a missing or non-string `sessionId`, or a string that
is neither a live registry key nor an `Object.prototype` property name,
is answered with HTTP 400 without throwing; a `sessionId` present in the
registry routes the message to that session's transport handler; but a
`sessionId` naming an inherited `Object.prototype` property (such as
`"constructor"`) passes the unknown-session guard and the handler throws
a `TypeError` — a server error, not the claimed 400. -/
theorem messagesPost_session_routing (transports : List (String × Nat))
    (q : QueryParamValue) :
    ((q = .missing ∨ q = .nonString ∨
        ∃ s, q = .single s ∧ transports.lookup s = none ∧
          objectPrototypeKeys.contains s = false) →
      handleMessagesPost transports q = .clientError 400 "Invalid sessionId.") ∧
    (∀ s transport, q = .single s → transports.lookup s = some transport →
      handleMessagesPost transports q = .handledBy s transport) ∧
    (∀ s, q = .single s → transports.lookup s = none →
      objectPrototypeKeys.contains s = true →
      handleMessagesPost transports q = .serverError) := by
  refine ⟨?_, ?_, ?_⟩
  · rintro (rfl | rfl | ⟨s, rfl, hs, hp⟩)
    · rfl
    · rfl
    · have hp' : s ∉ objectPrototypeKeys := by simpa using hp
      simp [handleMessagesPost, hs, hp']
  · rintro s transport rfl hs
    simp [handleMessagesPost, hs]
  · rintro s rfl hs hp
    have hp' : s ∈ objectPrototypeKeys := by simpa using hp
    simp [handleMessagesPost, hs, hp']

theorem messagesPost_session_routing_witness :
    handleMessagesPost [("live-session", 7)] (.single "dead-session") =
      .clientError 400 "Invalid sessionId." ∧
    handleMessagesPost [("live-session", 7)] (.single "live-session") =
      .handledBy "live-session" 7 := by
  refine ⟨(messagesPost_session_routing [("live-session", 7)] (.single "dead-session")).1
      (.inr (.inr ⟨"dead-session", rfl, by decide, by decide⟩)),
    (messagesPost_session_routing [("live-session", 7)] (.single "live-session")).2.1
      "live-session" 7 rfl (by decide)⟩

/-! ## Round-trip lemmas for the compiler -/

theorem names_conv (required : List String) : (props : JsonProps) →
    ZodFields.names (jsonPropsToZodFields required props) = props.names
  | .nil => rfl
  | .cons name _schema rest => by
      simp [jsonPropsToZodFields, ZodFields.names, JsonProps.names,
        names_conv required rest]

theorem required_conv (required : List String) : (props : JsonProps) →
    zodFieldsRequired (jsonPropsToZodFields required props) =
      (props.names).filter (fun n => required.contains n)
  | .nil => rfl
  | .cons name _schema rest => by
      by_cases h : name ∈ required <;>
        simp [jsonPropsToZodFields, zodFieldsRequired, JsonProps.names, h,
          List.filter_cons, required_conv required rest]

mutual

theorem rt_exact : (s : JsonSchema) → roundTripExactShape s = true →
    zodToJsonSchemaFn (jsonSchemaToZodFn s) = s
  | .jstring, _ => rfl
  | .jnumber, _ => rfl
  | .jboolean, _ => rfl
  | .jarray items, h => by
      simp [roundTripExactShape] at h
      simp [jsonSchemaToZodFn, zodToJsonSchemaFn, rt_exact items h]
  | .jobjectProps props required addl, h => by
      simp [roundTripExactShape] at h
      obtain ⟨⟨hp, ha⟩, hr⟩ := h
      subst ha
      simp [jsonSchemaToZodFn, zodToJsonSchemaFn, rt_exact_props required props hp,
        required_conv, ← hr]
  | .jstringEnum values, h => by
      rcases values with _ | ⟨v1, _ | ⟨v2, rest⟩⟩
      · simp [roundTripExactShape] at h
      · simp [roundTripExactShape] at h
      · rfl

theorem rt_exact_props (required : List String) : (props : JsonProps) →
    roundTripExactProps props = true →
    zodFieldsToJsonProps (jsonPropsToZodFields required props) = props
  | .nil, _ => rfl
  | .cons name schema rest, h => by
      simp [roundTripExactProps] at h
      simp [jsonPropsToZodFields, zodFieldsToJsonProps, rt_exact schema h.1,
        rt_exact_props required rest h.2]

end

/-- C3 counterexample: the bare object schema `{type: "object"}` — a
fully-supported shape per the claim ("object ... without declared
properties") — does not round-trip to itself: the compiled validator
`z.record(z.any())` converts back to
`{type: "object", additionalProperties: {}}`, a different fragment (this
is exactly what the repository's own test pins with its `expected`
override). -/
theorem schemaRoundTrip_bare_object_counterexample :
    schemaRoundTrip .jobjectAny = .ok .jobjectAnyOpen ∧
    JsonSchema.jobjectAny ≠ JsonSchema.jobjectAnyOpen := ⟨rfl, by decide⟩

/-- C3 (amended): round-tripping a compiled validator back to JSON-Schema
reproduces the original fragment exactly for `string`, `number`,
`boolean`, `array` of such shapes, `enum` of two or more values, and
`object` *with* declared properties (with `additionalProperties: false`
and a canonical `required` list).  The round trip is not exact for the
remaining claimed shapes: an `object` without declared properties
acquires `additionalProperties: {}` (semantically equivalent,
syntactically different); a one-element `enum` compiles to `z.literal`
and round-trips to `{type: "string", const: v}`; and a `oneOf` schema is
lossy: it round-trips to the empty schema. -/
theorem schemaRoundTrip_characterization :
    (∀ s : JsonSchema, roundTripExactShape s = true → schemaRoundTrip s = .ok s) ∧
    (∀ v : String, schemaRoundTrip (.jstringEnum [v]) = .ok (.jstringConst v)) ∧
    (∀ variants : JsonSchemaList, schemaRoundTrip (.joneOf variants) = .ok .jempty) := by
  refine ⟨fun s h => ?_, fun v => rfl, fun variants => rfl⟩
  simp [schemaRoundTrip, getZodSchemaFromJsonSchema, convertWith, jsonSchemaToZod,
    Except.map, rt_exact s h]

theorem schemaRoundTrip_characterization_witness :
    schemaRoundTrip
        (.jobjectProps (.cons "name" .jstring (.cons "age" .jnumber .nil))
          ["name"] true) =
      .ok (.jobjectProps (.cons "name" .jstring (.cons "age" .jnumber .nil))
          ["name"] true) :=
  schemaRoundTrip_characterization.1 _ (by decide)

/-- C1 counterexample: the empty schema `{}` (no recognized constructs)
compiles successfully — `getZodSchemaFromJsonSchema` reports success and
returns `z.any()` — and that validator accepts a value of every primitive
kind, refuting "for no input schema does the compiler return a validator
that accepts every value while reporting success". -/
theorem getZodSchemaFromJsonSchema_empty_accepts_all :
    getZodSchemaFromJsonSchema .jempty = .ok .zany ∧
    zodParse .zany .jnull = true ∧
    zodParse .zany (.jbool false) = true ∧
    zodParse .zany (.jnum 0) = true ∧
    zodParse .zany (.jstr "x") = true ∧
    zodParse .zany (.jarr .nil) = true ∧
    zodParse .zany (.jobj .nil) = true := by
  refine ⟨rfl, ?_, ?_, ?_, ?_, ?_, ?_⟩ <;> simp [zodParse]

/-- C1 (amended): when the schema-to-validator transformation raises, the
compiler fails with the distinguishable `ZodSchemaConversionError`
carrying the offending schema; when a parameter's schema fragment is
absent, parameter compilation fails with the "No schema found" error.
(The claim's further part — that no input schema yields a
success-reported accept-everything validator — is false: see the
counterexample; the empty schema legitimately compiles to `z.any()`.) -/
theorem compiler_failure_paths
    (convert : JsonSchema → Except String ZodSchema) (s : JsonSchema)
    (cause : String) (endpointPath paramName : String) (p : ParameterSpec) :
    (convert s = .error cause →
      convertWith convert s = .error (.zodSchemaConversionError s cause)) ∧
    (p.schema = none →
      compileParameter convert endpointPath paramName p =
        .error (.noSchemaFound paramName endpointPath)) := by
  constructor
  · intro h; simp [convertWith, h]
  · intro h; simp [compileParameter, h]

theorem compiler_failure_paths_witness :
    convertWith (fun _ => .error "unsupported construct") .jstring =
      .error (.zodSchemaConversionError .jstring "unsupported construct") ∧
    compileParameter jsonSchemaToZod "test" "a" ⟨none, false, "d"⟩ =
      .error (.noSchemaFound "a" "test") := by
  have h := compiler_failure_paths (fun _ => .error "unsupported construct")
    .jstring "unsupported construct" "test" "a" ⟨none, false, "d"⟩
  exact ⟨h.1 rfl, h.2 rfl⟩

/-! ## Validator correctness lemmas -/

/-- The compiled validator of a string `enum` (a `z.literal` for one
element, a `z.enum` otherwise) accepts exactly the member strings. -/
theorem string_beq_decide (a b : String) : (a == b) = decide (a = b) := by
  by_cases h : a = b <;> simp [h]

theorem zodParse_enum (values : List String) (v : Json) :
    zodParse (jsonSchemaToZodFn (.jstringEnum values)) v =
      (match v with
       | .jstr s => values.contains s
       | _ => false) := by
  rcases values with _ | ⟨w, _ | ⟨w2, rest⟩⟩ <;> cases v <;>
    simp [jsonSchemaToZodFn, zodParse, string_beq_decide]

theorem zod_rejects_kind (s : JsonSchema) (v : Json) (k : JsonKind)
    (hk : JsonSchema.primKind s = some k) (hv : Json.primKind v ≠ k) :
    zodParse (jsonSchemaToZodFn s) v = false := by
  cases s <;>
    first
      | (cases v <;> simp_all [JsonSchema.primKind, Json.primKind, zodParse_enum] <;>
          done)
      | (cases v <;>
          simp_all [JsonSchema.primKind, Json.primKind, jsonSchemaToZodFn,
            zodParse])

mutual

theorem zod_accepts_valid : (s : JsonSchema) → (v : Json) →
    supportedShape s = true → schemaDeclaresValid s v = true →
    zodParse (jsonSchemaToZodFn s) v = true
  | .jstring, v, _, hv => by
      cases v <;> simp_all [schemaDeclaresValid, jsonSchemaToZodFn, zodParse]
  | .jnumber, v, _, hv => by
      cases v <;> simp_all [schemaDeclaresValid, jsonSchemaToZodFn, zodParse]
  | .jboolean, v, _, hv => by
      cases v <;> simp_all [schemaDeclaresValid, jsonSchemaToZodFn, zodParse]
  | .jarray items, v, hs, hv => by
      cases v with
      | jarr xs =>
          have hs' : supportedShape items = true := by
            simpa [supportedShape] using hs
          have hv' : schemaListValid items xs = true := by
            simpa [schemaDeclaresValid] using hv
          simpa [jsonSchemaToZodFn, zodParse] using
            zod_accepts_list items xs hs' hv'
      | jnull => simp [schemaDeclaresValid] at hv
      | jbool b => simp [schemaDeclaresValid] at hv
      | jnum n => simp [schemaDeclaresValid] at hv
      | jstr s => simp [schemaDeclaresValid] at hv
      | jobj kvs => simp [schemaDeclaresValid] at hv
  | .jobjectAny, v, _, hv => by
      cases v <;> simp_all [schemaDeclaresValid, jsonSchemaToZodFn, zodParse]
  | .jobjectAnyOpen, v, _, hv => by
      cases v <;> simp_all [schemaDeclaresValid, jsonSchemaToZodFn, zodParse]
  | .jobjectProps props required addl, v, hs, hv => by
      cases v with
      | jobj kvs =>
          have hp : supportedProps props = true := by
            simp [supportedShape] at hs; exact hs.1
          have hv' := hv
          simp [schemaDeclaresValid] at hv'
          obtain ⟨⟨hpv, hreq⟩, hstrict⟩ := hv'
          have hfields := zod_accepts_fields props required kvs hp hpv
            (by simpa using hreq)
          simp [jsonSchemaToZodFn, zodParse, hfields, names_conv]
          cases addl with
          | false => simp
          | true => simpa using hstrict
      | jnull => simp [schemaDeclaresValid] at hv
      | jbool b => simp [schemaDeclaresValid] at hv
      | jnum n => simp [schemaDeclaresValid] at hv
      | jstr s => simp [schemaDeclaresValid] at hv
      | jarr xs => simp [schemaDeclaresValid] at hv
  | .jstringEnum values, v, _, hv => by
      cases v <;> simp_all [schemaDeclaresValid, zodParse_enum]
termination_by s v => (sizeOf s, sizeOf v)

theorem zod_accepts_list : (items : JsonSchema) → (xs : JsonList) →
    supportedShape items = true → schemaListValid items xs = true →
    zodParseList (jsonSchemaToZodFn items) xs = true
  | _, .nil, _, _ => by simp [zodParseList]
  | items, .cons h t, hs, hv => by
      simp [schemaListValid] at hv
      simp [zodParseList, zod_accepts_valid items h hs hv.1,
        zod_accepts_list items t hs hv.2]
termination_by items xs => (sizeOf items, sizeOf xs)

theorem zod_accepts_fields : (props : JsonProps) → (required : List String) →
    (kvs : JsonObj) → supportedProps props = true →
    schemaPropsValid props kvs = true →
    (∀ r ∈ required, (kvs.lookup r).isSome) →
    zodParseFields (jsonPropsToZodFields required props) kvs = true
  | .nil, _, _, _, _, _ => by simp [jsonPropsToZodFields, zodParseFields]
  | .cons name schema rest, required, kvs, hp, hv, hreq => by
      simp [supportedProps] at hp
      simp [schemaPropsValid] at hv
      simp [jsonPropsToZodFields, zodParseFields]
      constructor
      · cases hl : kvs.lookup name with
        | some v =>
            have := hv.1
            rw [hl] at this
            exact zod_accepts_valid schema v hp.1 this
        | none =>
            simp
            intro hmem
            have := hreq name hmem
            rw [hl] at this
            simp at this
      · exact zod_accepts_fields rest required kvs hp.2 hv.2 hreq
termination_by props _ kvs => (sizeOf props, sizeOf kvs)

end

/-- C4: the compiler succeeds on every supported primitive shape
(`string`, `number`, `boolean`, `array` of a supported item type,
`object`, `enum`); the compiled validator accepts every value the schema
declares valid and rejects every value of a different primitive kind; and
the validator compiled from `{type: "object", properties: {name: {type:
"string"}}, required: ["name"], additionalProperties: false}` accepts
`{name: "Jane"}` and rejects `{}`, `{name: 1}` and
`{name: "Jane", extra: true}`. -/
theorem compiled_validator_correct :
    (∀ s : JsonSchema, getZodSchemaFromJsonSchema s = .ok (jsonSchemaToZodFn s)) ∧
    (∀ (s : JsonSchema) (v : Json), supportedShape s = true →
      schemaDeclaresValid s v = true → zodParse (jsonSchemaToZodFn s) v = true) ∧
    (∀ (s : JsonSchema) (v : Json) (k : JsonKind), supportedShape s = true →
      JsonSchema.primKind s = some k → Json.primKind v ≠ k →
      zodParse (jsonSchemaToZodFn s) v = false) ∧
    zodParse (jsonSchemaToZodFn (.jobjectProps (.cons "name" .jstring .nil) ["name"] true))
      (.jobj (.cons "name" (.jstr "Jane") .nil)) = true ∧
    zodParse (jsonSchemaToZodFn (.jobjectProps (.cons "name" .jstring .nil) ["name"] true))
      (.jobj .nil) = false ∧
    zodParse (jsonSchemaToZodFn (.jobjectProps (.cons "name" .jstring .nil) ["name"] true))
      (.jobj (.cons "name" (.jnum 1) .nil)) = false ∧
    zodParse (jsonSchemaToZodFn (.jobjectProps (.cons "name" .jstring .nil) ["name"] true))
      (.jobj (.cons "name" (.jstr "Jane") (.cons "extra" (.jbool true) .nil))) = false := by
  refine ⟨fun s => rfl, zod_accepts_valid, fun s v k _ => zod_rejects_kind s v k, ?_, ?_, ?_, ?_⟩ <;>
    simp [jsonSchemaToZodFn, jsonPropsToZodFields, zodParse, zodParseFields,
      JsonObj.lookup, JsonObj.allKeys, ZodFields.names]

theorem compiled_validator_correct_witness :
    zodParse (jsonSchemaToZodFn (.jarray .jnumber))
      (.jarr (.cons (.jnum 1) (.cons (.jnum 2) .nil))) = true ∧
    zodParse (jsonSchemaToZodFn (.jstringEnum ["a", "b", "c"])) (.jnum 3) = false :=
  ⟨compiled_validator_correct.2.1 (.jarray .jnumber)
      (.jarr (.cons (.jnum 1) (.cons (.jnum 2) .nil))) (by decide)
      (by simp [schemaDeclaresValid, schemaListValid]),
    compiled_validator_correct.2.2.1 (.jstringEnum ["a", "b", "c"]) (.jnum 3) .kstr
      (by decide) (by decide) (by decide)⟩

/-! ## Registration lemmas -/

theorem registerTool_ok {registry : List Tool} {t : Tool}
    (h : t.name ∉ toolNames registry) :
    registerTool registry t = .ok (registry ++ [t]) := by
  have ha : registry.any (fun u => u.name == t.name) = false := by
    simp [toolNames, List.mem_map] at h
    simp [List.any_eq_true]
    intro u hu he
    exact h u hu he
  simp [registerTool, ha]

theorem registerTool_dup {registry : List Tool} {t : Tool}
    (h : t.name ∈ toolNames registry) :
    registerTool registry t = .error (.toolAlreadyRegistered t.name) := by
  have ha : registry.any (fun u => u.name == t.name) = true := by
    simp [toolNames, List.mem_map] at h
    obtain ⟨u, hu, he⟩ := h
    simp [List.any_eq_true]
    exact ⟨u, hu, he⟩
  simp [registerTool, ha]

theorem toolNames_append (a b : List Tool) :
    toolNames (a ++ b) = toolNames a ++ toolNames b := by
  simp [toolNames]

/-- Names that `registerSpecs` will register, in order. -/
def specNames (opts : MCPOptions)
    (specs : List (String × String × List (String × ToolInput) × HandlerSpec)) :
    List String :=
  (specs.filter fun b => !isDisabled opts.disableTools b.1).map
    (fun b => applyToolNamePrefix opts.toolPrefixOpt b.1)

theorem registerSpecs_char (opts : MCPOptions) :
    (specs : List (String × String × List (String × ToolInput) × HandlerSpec)) →
    (registry : List Tool) →
    (specNames opts specs).Nodup →
    (∀ n ∈ specNames opts specs, n ∉ toolNames registry) →
    registerSpecs opts registry specs =
      .ok (registry ++
        (specs.filter fun b => !isDisabled opts.disableTools b.1).map
          (mkBuiltinTool opts.toolPrefixOpt))
  | [], registry, _, _ => by simp [registerSpecs]
  | b :: rest, registry, hn, hd => by
      by_cases hdis : isDisabled opts.disableTools b.1
      · have hn' : (specNames opts rest).Nodup := by
          simpa [specNames, List.filter_cons, hdis] using hn
        have hd' : ∀ n ∈ specNames opts rest, n ∉ toolNames registry := fun n hm =>
          hd n (by simpa [specNames, List.filter_cons, hdis] using hm)
        simp [registerSpecs, hdis, List.filter_cons, bind, Except.bind,
          registerSpecs_char opts rest registry hn' hd']
      · have hcons : specNames opts (b :: rest) =
            applyToolNamePrefix opts.toolPrefixOpt b.1 :: specNames opts rest := by
          simp [specNames, List.filter_cons, hdis]
        rw [hcons] at hn hd
        have hnodup := List.nodup_cons.mp hn
        have hhead : (mkBuiltinTool opts.toolPrefixOpt b).name ∉ toolNames registry :=
          hd _ (List.mem_cons_self _ _)
        have hd' : ∀ n ∈ specNames opts rest,
            n ∉ toolNames (registry ++ [mkBuiltinTool opts.toolPrefixOpt b]) := by
          intro n hm
          rw [toolNames_append]
          simp only [List.mem_append]
          rintro (hr | hx)
          · exact hd n (List.mem_cons_of_mem _ hm) hr
          · simp [toolNames, mkBuiltinTool] at hx
            exact hnodup.1 (hx ▸ hm)
        simp [registerSpecs, hdis, registerTool_ok hhead, List.filter_cons,
          bind, Except.bind,
          registerSpecs_char opts rest _ hnodup.2 hd', List.append_assoc]

theorem compileParameters_ok (path : String) :
    (params : List (String × ParameterSpec)) →
    (∀ np ∈ params, (np.2.schema).isSome = true) →
    compileParameters jsonSchemaToZod path params =
      .ok (params.map fun np => (np.1, mkCompiledParam np.2))
  | [], _ => rfl
  | (n, p) :: rest, h => by
      obtain ⟨js, hjs⟩ :=
        Option.isSome_iff_exists.mp (h (n, p) (List.mem_cons_self _ _))
      have hjs' : p.schema = some js := hjs
      have hrec := compileParameters_ok path rest
        (fun np hm => h np (List.mem_cons_of_mem _ hm))
      simp [compileParameters, compileParameter, hjs', convertWith, jsonSchemaToZod,
        bind, Except.bind, pure, Except.pure, hrec, mkCompiledParam]

/-- The prefixed `query_<path>` names that static registration will
register, in order. -/
def endpointQueryNames (toolPrefixOpt : Option String)
    (disableTools : Option (List String)) (endpoints : List EndpointMetadata) :
    List String :=
  (endpoints.filter fun e => !isDisabled disableTools (endpointToolName e)).map
    (fun e => applyToolNamePrefix toolPrefixOpt (endpointToolName e))

theorem addEndpoints_char (tp : Option String) (d : Option (List String)) :
    (endpoints : List EndpointMetadata) → (registry : List Tool) →
    (∀ e ∈ endpoints, ∀ np ∈ e.params, (np.2.schema).isSome = true) →
    (endpointQueryNames tp d endpoints).Nodup →
    (∀ n ∈ endpointQueryNames tp d endpoints, n ∉ toolNames registry) →
    addEndpoints jsonSchemaToZod registry endpoints tp d =
      .ok (registry ++ endpoints.filterMap (expectedEndpointTool tp d))
  | [], registry, _, _, _ => by simp [addEndpoints]
  | e :: rest, registry, hs, hn, hd => by
      have hc := compileParameters_ok e.path e.params (hs e (List.mem_cons_self _ _))
      have hs' : ∀ e' ∈ rest, ∀ np ∈ e'.params, (np.2.schema).isSome = true :=
        fun e' hm => hs e' (List.mem_cons_of_mem _ hm)
      by_cases hdis : isDisabled d (endpointToolName e)
      · have hn' : (endpointQueryNames tp d rest).Nodup := by
          simpa [endpointQueryNames, List.filter_cons, hdis] using hn
        have hd' : ∀ n ∈ endpointQueryNames tp d rest, n ∉ toolNames registry :=
          fun n hm =>
            hd n (by simpa [endpointQueryNames, List.filter_cons, hdis] using hm)
        simp [addEndpoints, hc, bind, Except.bind, pure, Except.pure, hdis,
          List.filterMap_cons, expectedEndpointTool,
          addEndpoints_char tp d rest registry hs' hn' hd']
      · have hcons : endpointQueryNames tp d (e :: rest) =
            applyToolNamePrefix tp (endpointToolName e) ::
              endpointQueryNames tp d rest := by
          simp [endpointQueryNames, List.filter_cons, hdis]
        rw [hcons] at hn hd
        have hnodup := List.nodup_cons.mp hn
        have hhead :
            (endpointTool tp e (e.params.map fun np => (np.1, mkCompiledParam np.2))).name ∉
              toolNames registry :=
          hd _ (List.mem_cons_self _ _)
        have hd' : ∀ n ∈ endpointQueryNames tp d rest,
            n ∉ toolNames (registry ++
              [endpointTool tp e (e.params.map fun np => (np.1, mkCompiledParam np.2))]) := by
          intro n hm
          rw [toolNames_append]
          simp only [List.mem_append]
          rintro (hr | hx)
          · exact hd n (List.mem_cons_of_mem _ hm) hr
          · simp [toolNames, endpointTool] at hx
            exact hnodup.1 (hx ▸ hm)
        simp [addEndpoints, hc, bind, Except.bind, pure, Except.pure, hdis,
          registerTool_ok hhead, List.filterMap_cons, expectedEndpointTool,
          addEndpoints_char tp d rest _ hs' hnodup.2 hd', List.append_assoc]

theorem specNames_nodup (opts : MCPOptions)
    (specs : List (String × String × List (String × ToolInput) × HandlerSpec))
    (h : (specs.map (·.1)).Nodup) : (specNames opts specs).Nodup := by
  have heq : specNames opts specs =
      ((specs.filter fun b => !isDisabled opts.disableTools b.1).map (·.1)).map
        (applyToolNamePrefix opts.toolPrefixOpt) := by
    simp [specNames, List.map_map]
  rw [heq]
  exact ((h.sublist ((List.filter_sublist _).map _)).map
    (applyToolNamePrefix_injective opts.toolPrefixOpt))

theorem builtinBaseNames_nodup : builtinBaseNames.Nodup := by decide

theorem builtin_names_eq (opts : MCPOptions) :
    toolNames (builtinTools opts) = specNames opts builtinSpecs := by
  simp [builtinTools, toolNames, specNames, List.map_map, mkBuiltinTool]

theorem builtin_head_not_q : ∀ b ∈ builtinBaseNames, b.data.head? ≠ some 'q' := by
  decide

theorem query_notin_builtin_names (opts : MCPOptions) (path : String) :
    applyToolNamePrefix opts.toolPrefixOpt ("query_" ++ path) ∉
      toolNames (builtinTools opts) := by
  intro hmem
  rw [builtin_names_eq] at hmem
  simp only [specNames, List.mem_map] at hmem
  obtain ⟨b, hb, heq⟩ := hmem
  have hb' : b ∈ builtinSpecs := List.mem_of_mem_filter hb
  have hbase : b.1 ∈ builtinBaseNames := List.mem_map_of_mem (·.1) hb'
  have h1 : b.1 = "query_" ++ path :=
    applyToolNamePrefix_injective opts.toolPrefixOpt heq
  exact queryName_ne_of_head path b.1 (builtin_head_not_q b.1 hbase) h1.symm

theorem endpointQueryNames_nodup (tp : Option String) (d : Option (List String))
    (endpoints : List EndpointMetadata)
    (h : (endpoints.map (·.path)).Nodup) :
    (endpointQueryNames tp d endpoints).Nodup := by
  have heq : endpointQueryNames tp d endpoints =
      ((endpoints.filter fun e => !isDisabled d (endpointToolName e)).map
        (·.path)).map (fun p => applyToolNamePrefix tp ("query_" ++ p)) := by
    simp [endpointQueryNames, List.map_map, endpointToolName]
  rw [heq]
  refine ((h.sublist ((List.filter_sublist _).map _)).map ?_)
  intro a b hab
  exact String.append_inj_right (applyToolNamePrefix_injective tp hab)

theorem registerBuiltins_ok (opts : MCPOptions) :
    registerBuiltins opts [] = .ok (builtinTools opts) := by
  have h := registerSpecs_char opts builtinSpecs []
    (specNames_nodup opts builtinSpecs builtinBaseNames_nodup)
    (by intro n _; simp [toolNames])
  simpa [registerBuiltins, builtinTools] using h

theorem dynamic_base_notin_builtin (opts : MCPOptions) (base : String)
    (hbase : base ∉ builtinBaseNames) :
    applyToolNamePrefix opts.toolPrefixOpt base ∉ toolNames (builtinTools opts) := by
  intro hmem
  rw [builtin_names_eq] at hmem
  simp only [specNames, List.mem_map] at hmem
  obtain ⟨b, hb, heq⟩ := hmem
  have hb' : b ∈ builtinSpecs := List.mem_of_mem_filter hb
  have h1 : b.1 = base := applyToolNamePrefix_injective opts.toolPrefixOpt heq
  exact hbase (h1 ▸ List.mem_map_of_mem (·.1) hb')

theorem startMcpServerTools_dynamic_char (opts : MCPOptions)
    (endpoints : List EndpointMetadata)
    (hdyn : opts.dynamicEndpointTools = true) :
    startMcpServerTools jsonSchemaToZod opts endpoints =
      .ok (builtinTools opts ++ [toolGetEndpoints opts, toolCallEndpoint opts], 0) := by
  have h2 := registerTool_ok (t := toolGetEndpoints opts)
    (dynamic_base_notin_builtin opts "system_get_endpoints" (by decide))
  have h3 : (toolCallEndpoint opts).name ∉
      toolNames (builtinTools opts ++ [toolGetEndpoints opts]) := by
    rw [toolNames_append]
    simp only [List.mem_append]
    rintro (hr | hx)
    · exact dynamic_base_notin_builtin opts "call_endpoint" (by decide) hr
    · simp [toolNames, toolGetEndpoints, toolCallEndpoint] at hx
      exact (by decide : ("call_endpoint" : String) ≠ "system_get_endpoints")
        (applyToolNamePrefix_injective opts.toolPrefixOpt hx)
  have h3' := registerTool_ok h3
  simp [startMcpServerTools, registerBuiltins_ok opts, hdyn, h2, h3',
    bind, Except.bind, pure, Except.pure, List.append_assoc]

theorem startMcpServerTools_static_char (opts : MCPOptions)
    (endpoints : List EndpointMetadata)
    (hdyn : opts.dynamicEndpointTools = false)
    (hs : ∀ e ∈ endpoints, ∀ np ∈ e.params, (np.2.schema).isSome = true)
    (hp : (endpoints.map (·.path)).Nodup) :
    startMcpServerTools jsonSchemaToZod opts endpoints =
      .ok (builtinTools opts ++
        endpoints.filterMap
          (expectedEndpointTool opts.toolPrefixOpt opts.disableTools), 1) := by
  have hd : ∀ n ∈ endpointQueryNames opts.toolPrefixOpt opts.disableTools endpoints,
      n ∉ toolNames (builtinTools opts) := by
    intro n hm
    simp only [endpointQueryNames, List.mem_map] at hm
    obtain ⟨e, _, heq⟩ := hm
    rw [← heq]
    simpa [endpointToolName] using query_notin_builtin_names opts e.path
  have h2 := addEndpoints_char opts.toolPrefixOpt opts.disableTools endpoints
    (builtinTools opts) hs (endpointQueryNames_nodup _ _ _ hp) hd
  simp [startMcpServerTools, registerBuiltins_ok opts, hdyn, h2,
    bind, Except.bind, pure, Except.pure]

theorem builtin_handler_not_query (opts : MCPOptions) :
    ∀ t ∈ builtinTools opts, ∀ pth m, t.handler ≠ .queryEndpoint pth m := by
  intro t ht pth m
  simp only [builtinTools, List.mem_map] at ht
  obtain ⟨b, hb, heq⟩ := ht
  have hb' : b ∈ builtinSpecs := List.mem_of_mem_filter hb
  subst heq
  simp [builtinSpecs] at hb'
  rcases hb' with h | h | h | h | h | h <;> simp [h, mkBuiltinTool]

/-- C5: with dynamic endpoint mode the registrar registers the built-ins
and exactly two endpoint-related tools — `system_get_endpoints` (raw
metadata list) and `call_endpoint` (generic call-by-path with parameters
`path`, `requestMethod`, `parameters : map<string, string|number|boolean>`)
— fetching no startup metadata snapshot and registering no per-endpoint
tool; without it the registrar fetches the snapshot exactly once and, for
every endpoint whose unprefixed derived name `query_<path>` is not in the
disable-list, registers one tool named `query_<path>` (prefixed when a
prefix is configured) whose handler calls `executeRequest` with that
endpoint's path and request method; disabled endpoints get no tool. -/
theorem startup_tool_registration (tp : Option String)
    (disables : Option (List String)) (endpoints : List EndpointMetadata)
    (hs : ∀ e ∈ endpoints, ∀ np ∈ e.params, (np.2.schema).isSome = true)
    (hp : (endpoints.map (·.path)).Nodup) :
    (startMcpServerTools jsonSchemaToZod ⟨tp, true, disables⟩ endpoints =
      .ok (builtinTools ⟨tp, true, disables⟩ ++
        [toolGetEndpoints ⟨tp, true, disables⟩,
         toolCallEndpoint ⟨tp, true, disables⟩], 0)) ∧
    (∀ t ∈ builtinTools ⟨tp, true, disables⟩ ++
        [toolGetEndpoints ⟨tp, true, disables⟩,
         toolCallEndpoint ⟨tp, true, disables⟩],
      ∀ pth m, t.handler ≠ .queryEndpoint pth m) ∧
    (startMcpServerTools jsonSchemaToZod ⟨tp, false, disables⟩ endpoints =
      .ok (builtinTools ⟨tp, false, disables⟩ ++
        endpoints.filterMap (expectedEndpointTool tp disables), 1)) ∧
    (∀ e ∈ endpoints, isDisabled disables (endpointToolName e) = false →
      expectedEndpointTool tp disables e =
        some { name := applyToolNamePrefix tp ("query_" ++ e.path)
               description := endpointToolDescription e
               inputs := e.params.map fun np =>
                 (np.1, ToolInput.compiled (mkCompiledParam np.2))
               handler := .queryEndpoint e.path e.requestMethod }) ∧
    (∀ e ∈ endpoints, isDisabled disables (endpointToolName e) = true →
      expectedEndpointTool tp disables e = none) := by
  refine ⟨startMcpServerTools_dynamic_char _ _ rfl, ?_, ?_, ?_, ?_⟩
  · intro t ht pth m
    rcases List.mem_append.mp ht with hb | htwo
    · exact builtin_handler_not_query _ t hb pth m
    · simp only [List.mem_cons, List.not_mem_nil, or_false] at htwo
      rcases htwo with rfl | rfl
      · simp [toolGetEndpoints]
      · simp [toolCallEndpoint]
  · exact startMcpServerTools_static_char _ _ rfl hs hp
  · intro e _ hdis
    simp only [endpointToolName] at hdis
    simp [expectedEndpointTool, endpointToolName, hdis, endpointTool]
  · intro e _ hdis
    simp [expectedEndpointTool, hdis]

theorem startup_tool_registration_witness :
    startMcpServerTools jsonSchemaToZod ⟨none, false, none⟩
        [⟨"test", "GET", some "Test endpoint", []⟩] =
      .ok (builtinTools ⟨none, false, none⟩ ++
        [{ name := "query_test", description := "Defined Query: Test endpoint",
           inputs := [], handler := .queryEndpoint "test" "GET" }], 1) := by
  have h := startup_tool_registration none none
    [⟨"test", "GET", some "Test endpoint", []⟩] (by simp) (by simp)
  rw [h.2.2.1]
  rfl

theorem builtin_name_mem_iff (opts : MCPOptions) (X : String) :
    applyToolNamePrefix opts.toolPrefixOpt X ∈ toolNames (builtinTools opts) ↔
      X ∈ builtinBaseNames ∧ isDisabled opts.disableTools X = false := by
  rw [builtin_names_eq]
  constructor
  · intro hmem
    simp only [specNames, List.mem_map] at hmem
    obtain ⟨b, hb, heq⟩ := hmem
    have h1 : b.1 = X := applyToolNamePrefix_injective _ heq
    have hf := List.mem_filter.mp hb
    refine ⟨h1 ▸ List.mem_map_of_mem (·.1) hf.1, ?_⟩
    have := hf.2
    simp only [h1, Bool.not_eq_true'] at this
    exact this
  · rintro ⟨hX, hdis⟩
    simp only [builtinBaseNames, List.mem_map] at hX
    obtain ⟨b, hb, hb1⟩ := hX
    simp only [specNames, List.mem_map]
    exact ⟨b, List.mem_filter.mpr ⟨hb, by simp [hb1, hdis]⟩, by rw [hb1]⟩

/-- C7: after registration with disable-list `D`, a built-in tool name `N`
is absent from the registered set iff `N` is in `D`, and the presence of
every other built-in tool is unchanged when `N` is removed from `D`
(disabling one name affects exactly that tool). -/
theorem builtin_disable_frame (tp : Option String) (D : List String) (N : String)
    (hN : N ∈ builtinBaseNames) :
    (startMcpServerTools jsonSchemaToZod ⟨tp, false, some D⟩ [] =
      .ok (builtinTools ⟨tp, false, some D⟩, 1)) ∧
    ((applyToolNamePrefix tp N ∉
        toolNames (builtinTools ⟨tp, false, some D⟩)) ↔ N ∈ D) ∧
    (∀ M ∈ builtinBaseNames, M ≠ N →
      (applyToolNamePrefix tp M ∈ toolNames (builtinTools ⟨tp, false, some D⟩) ↔
       applyToolNamePrefix tp M ∈
         toolNames (builtinTools ⟨tp, false, some (D.erase N)⟩))) := by
  refine ⟨?_, ?_, ?_⟩
  · have h := startMcpServerTools_static_char ⟨tp, false, some D⟩ [] rfl
      (by simp) (by simp)
    simpa using h
  · rw [not_iff_comm]
    constructor
    · intro hD
      exact (builtin_name_mem_iff ⟨tp, false, some D⟩ N).mpr
        ⟨hN, by simpa [isDisabled] using hD⟩
    · intro hmem hD
      have := ((builtin_name_mem_iff ⟨tp, false, some D⟩ N).mp hmem).2
      simp [isDisabled] at this
      exact this hD
  · intro M _ hMN
    rw [builtin_name_mem_iff, builtin_name_mem_iff]
    simp only [isDisabled]
    constructor
    · rintro ⟨hMb, hm⟩
      refine ⟨hMb, ?_⟩
      simp at hm ⊢
      intro hc
      exact hm (List.mem_of_mem_erase hc)
    · rintro ⟨hMb, hm⟩
      refine ⟨hMb, ?_⟩
      simp at hm ⊢
      intro hc
      exact hm ((List.mem_erase_of_ne hMN).mpr hc)

theorem builtin_disable_frame_witness :
    (("pre_raw_query" : String) ∉
      toolNames (builtinTools ⟨some "pre", false, some ["raw_query"]⟩)) ∧
    (("pre_raw_readonly_query" : String) ∈
      toolNames (builtinTools ⟨some "pre", false, some ["raw_query"]⟩) ↔
     ("pre_raw_readonly_query" : String) ∈
      toolNames (builtinTools ⟨some "pre", false, some (["raw_query"].erase "raw_query")⟩)) := by
  have h := builtin_disable_frame (some "pre") ["raw_query"] "raw_query" (by decide)
  exact ⟨h.2.1.mpr (by decide), h.2.2 "raw_readonly_query" (by decide) (by decide)⟩

theorem registerTool_nodup {registry : List Tool} {t : Tool} {registry' : List Tool}
    (h : registerTool registry t = .ok registry')
    (hn : (toolNames registry).Nodup) : (toolNames registry').Nodup := by
  by_cases hm : t.name ∈ toolNames registry
  · rw [registerTool_dup hm] at h
    cases h
  · rw [registerTool_ok hm] at h
    cases h
    rw [toolNames_append]
    refine List.Nodup.append hn (by simp [toolNames]) ?_
    intro a ha hb
    simp only [toolNames, List.map_cons, List.map_nil, List.mem_singleton] at hb
    subst hb
    exact hm ha

theorem registerSpecs_nodup (opts : MCPOptions) :
    (specs : List (String × String × List (String × ToolInput) × HandlerSpec)) →
    (registry registry' : List Tool) →
    registerSpecs opts registry specs = .ok registry' →
    (toolNames registry).Nodup → (toolNames registry').Nodup
  | [], _, _, h, hn => by
      simp [registerSpecs] at h
      exact h ▸ hn
  | b :: rest, reg, reg', h, hn => by
      by_cases hdis : isDisabled opts.disableTools b.1
      · simp only [registerSpecs, hdis, if_true, bind, Except.bind, pure,
          Except.pure] at h
        exact registerSpecs_nodup opts rest reg reg' h hn
      · cases hr : registerTool reg (mkBuiltinTool opts.toolPrefixOpt b) with
        | error e =>
            simp [registerSpecs, hdis, bind, Except.bind, hr] at h
        | ok reg1 =>
            simp only [registerSpecs, hdis, if_false, bind, Except.bind, hr] at h
            exact registerSpecs_nodup opts rest reg1 reg' h
              (registerTool_nodup hr hn)

theorem addEndpoints_nodup (convert : JsonSchema → Except String ZodSchema)
    (tp : Option String) (d : Option (List String)) :
    (endpoints : List EndpointMetadata) → (registry registry' : List Tool) →
    addEndpoints convert registry endpoints tp d = .ok registry' →
    (toolNames registry).Nodup → (toolNames registry').Nodup
  | [], _, _, h, hn => by
      simp [addEndpoints] at h
      exact h ▸ hn
  | e :: rest, reg, reg', h, hn => by
      cases hcp : compileParameters convert e.path e.params with
      | error err =>
          simp [addEndpoints, hcp, bind, Except.bind] at h
      | ok cs =>
          by_cases hdis : isDisabled d (endpointToolName e)
          · simp only [addEndpoints, hcp, hdis, if_true, bind, Except.bind, pure,
              Except.pure] at h
            exact addEndpoints_nodup convert tp d rest reg reg' h hn
          · cases hr : registerTool reg (endpointTool tp e cs) with
            | error err =>
                simp [addEndpoints, hcp, hdis, bind, Except.bind, hr] at h
            | ok reg1 =>
                simp only [addEndpoints, hcp, hdis, if_false, bind, Except.bind,
                  hr] at h
                exact addEndpoints_nodup convert tp d rest reg1 reg' h
                  (registerTool_nodup hr hn)

theorem startMcpServerTools_nodup (convert : JsonSchema → Except String ZodSchema)
    (opts : MCPOptions) (endpoints : List EndpointMetadata) (tools : List Tool)
    (n : Nat) (h : startMcpServerTools convert opts endpoints = .ok (tools, n)) :
    (toolNames tools).Nodup := by
  cases hb : registerBuiltins opts [] with
  | error err => simp [startMcpServerTools, hb, bind, Except.bind] at h
  | ok reg =>
      have hreg : (toolNames reg).Nodup :=
        registerSpecs_nodup opts builtinSpecs [] reg hb (by simp [toolNames])
      by_cases hdyn : opts.dynamicEndpointTools
      · cases h1 : registerTool reg (toolGetEndpoints opts) with
        | error err =>
            simp [startMcpServerTools, hb, hdyn, h1, bind, Except.bind] at h
        | ok reg1 =>
            cases h2 : registerTool reg1 (toolCallEndpoint opts) with
            | error err =>
                simp [startMcpServerTools, hb, hdyn, h1, h2, bind, Except.bind] at h
            | ok reg2 =>
                simp [startMcpServerTools, hb, hdyn, h1, h2, bind, Except.bind,
                  pure, Except.pure] at h
                exact h.1 ▸ (registerTool_nodup h2 (registerTool_nodup h1 hreg))
      · cases ha : addEndpoints convert reg endpoints opts.toolPrefixOpt
            opts.disableTools with
        | error err =>
            simp [startMcpServerTools, hb, hdyn, ha, bind, Except.bind] at h
        | ok reg1 =>
            simp [startMcpServerTools, hb, hdyn, ha, bind, Except.bind,
              pure, Except.pure] at h
            exact h.1 ▸ addEndpoints_nodup convert opts.toolPrefixOpt
              opts.disableTools endpoints reg reg1 ha hreg

/-- C9: the registrar never completes registration with two tools of the
same derived name (every successfully registered tool list has pairwise
distinct names), and a collision — two endpoints sharing a path, hence one
derived name — surfaces a registration error instead of silently
shadowing the earlier tool. -/
theorem tool_name_uniqueness :
    (∀ (convert : JsonSchema → Except String ZodSchema) (opts : MCPOptions)
        (endpoints : List EndpointMetadata) (tools : List Tool) (n : Nat),
      startMcpServerTools convert opts endpoints = .ok (tools, n) →
      (toolNames tools).Nodup) ∧
    (startMcpServerTools jsonSchemaToZod ⟨none, false, none⟩
        [⟨"p", "GET", none, []⟩, ⟨"p", "POST", none, []⟩] =
      .error (.toolAlreadyRegistered "query_p")) :=
  ⟨startMcpServerTools_nodup, by rfl⟩

theorem tool_name_uniqueness_witness :
    (toolNames
      [{ name := "query_p", description := "Defined Query", inputs := [],
         handler := HandlerSpec.queryEndpoint "p" "GET" }]).Nodup :=
  tool_name_uniqueness.1 jsonSchemaToZod
    ⟨none, false, some ["system_list_databases", "system_get_database_status",
      "system_get_status", "system_get_database_schema", "raw_readonly_query",
      "raw_query"]⟩
    [⟨"p", "GET", none, []⟩]
    [{ name := "query_p", description := "Defined Query", inputs := [],
       handler := HandlerSpec.queryEndpoint "p" "GET" }] 1 (by rfl)

theorem compileParameters_broken (convert : JsonSchema → Except String ZodSchema)
    (path : String) :
    (params : List (String × ParameterSpec)) → (n : String) →
    (p : ParameterSpec) → ((n, p) ∈ params) →
    (p.schema = none ∨
      ∃ js cause, p.schema = some js ∧ convert js = .error cause) →
    ∃ err, compileParameters convert path params = .error err
  | [], n, p, hm, _ => absurd hm (List.not_mem_nil _)
  | (n', p') :: rest, n, p, hm, hbad => by
      cases hcp : compileParameter convert path n' p' with
      | error e => exact ⟨e, by simp [compileParameters, hcp, bind, Except.bind]⟩
      | ok c =>
          have hm' : (n, p) ∈ rest := by
            rcases List.mem_cons.mp hm with heq | h
            · exfalso
              injection heq with he1 he2
              subst he1
              subst he2
              rcases hbad with hnone | ⟨js, cause, hjs, hconv⟩
              · simp [compileParameter, hnone] at hcp
              · simp [compileParameter, hjs, convertWith, hconv] at hcp
            · exact h
          obtain ⟨err, herr⟩ := compileParameters_broken convert path rest n p hm' hbad
          exact ⟨err, by simp [compileParameters, hcp, herr, bind, Except.bind]⟩

theorem addEndpoints_broken (convert : JsonSchema → Except String ZodSchema)
    (tp : Option String) (d : Option (List String)) :
    (endpoints : List EndpointMetadata) → (e : EndpointMetadata) →
    (e ∈ endpoints) →
    (∃ err0, compileParameters convert e.path e.params = .error err0) →
    ∀ registry, ∃ err, addEndpoints convert registry endpoints tp d = .error err
  | [], e, hm, _, _ => absurd hm (List.not_mem_nil _)
  | e' :: rest, e, hm, hbad, reg => by
      cases hcp : compileParameters convert e'.path e'.params with
      | error err => exact ⟨err, by simp [addEndpoints, hcp, bind, Except.bind]⟩
      | ok cs =>
          have hm' : e ∈ rest := by
            rcases List.mem_cons.mp hm with rfl | h
            · obtain ⟨err0, h0⟩ := hbad
              rw [h0] at hcp
              cases hcp
            · exact h
          by_cases hdis : isDisabled d (endpointToolName e')
          · obtain ⟨err, herr⟩ := addEndpoints_broken convert tp d rest e hm' hbad reg
            exact ⟨err, by simp [addEndpoints, hcp, hdis, herr, bind, Except.bind,
              pure, Except.pure]⟩
          · cases hr : registerTool reg (endpointTool tp e' cs) with
            | error err =>
                exact ⟨err, by simp [addEndpoints, hcp, hdis, hr, bind, Except.bind]⟩
            | ok reg1 =>
                obtain ⟨err, herr⟩ :=
                  addEndpoints_broken convert tp d rest e hm' hbad reg1
                exact ⟨err, by simp [addEndpoints, hcp, hdis, hr, herr, bind,
                  Except.bind]⟩

/-- C10: during static registration every parameter schema of an endpoint
is compiled before the disable-list is consulted, so an endpoint whose
derived name is in the disable-list but whose parameter schema is absent
(or whose schema fails to compile) still aborts the whole registration
pass with an error, even though its tool would never have been
registered. -/
theorem broken_schema_aborts_registration
    (convert : JsonSchema → Except String ZodSchema) (opts : MCPOptions)
    (endpoints : List EndpointMetadata) (e : EndpointMetadata)
    (paramName : String) (p : ParameterSpec)
    (hmode : opts.dynamicEndpointTools = false)
    (he : e ∈ endpoints) (hp : (paramName, p) ∈ e.params)
    (_hdis : isDisabled opts.disableTools (endpointToolName e) = true)
    (hbroken : p.schema = none ∨
      ∃ js cause, p.schema = some js ∧ convert js = .error cause) :
    ∃ err, startMcpServerTools convert opts endpoints = .error err := by
  cases hb : registerBuiltins opts [] with
  | error err => exact ⟨err, by simp [startMcpServerTools, hb, bind, Except.bind]⟩
  | ok reg =>
      obtain ⟨err0, h0⟩ :=
        compileParameters_broken convert e.path e.params paramName p hp hbroken
      obtain ⟨err, herr⟩ := addEndpoints_broken convert opts.toolPrefixOpt
        opts.disableTools endpoints e he ⟨err0, h0⟩ reg
      exact ⟨err, by simp [startMcpServerTools, hb, hmode, herr, bind, Except.bind]⟩

theorem broken_schema_aborts_registration_witness :
    ∃ err, startMcpServerTools jsonSchemaToZod ⟨none, false, some ["query_bad"]⟩
      [⟨"bad", "GET", none, [("a", ⟨none, false, "d"⟩)]⟩] = .error err :=
  broken_schema_aborts_registration jsonSchemaToZod ⟨none, false, some ["query_bad"]⟩
    [⟨"bad", "GET", none, [("a", ⟨none, false, "d"⟩)]⟩]
    ⟨"bad", "GET", none, [("a", ⟨none, false, "d"⟩)]⟩ "a" ⟨none, false, "d"⟩
    rfl (List.mem_cons_self _ _) (List.mem_cons_self _ _) (by rfl) (Or.inl rfl)
